import Mathlib

/-!
# The partition-to-file adapter of `cmd/kfsmount/kfs/file.go`

A shallow embedding of the `File` type of the `kfs` package (one file per
topic partition, served over FUSE) and of its methods `Attr`, `Open`,
`Release`, `ReadAll`, `Read`, `reconsume` and `Write`.

Conventions of the embedding.

* A method with a pointer receiver becomes a function from the adapter state
  to the new adapter state together with what the method returns.
* A Go `error` result is an `Option GoError` (`none` is `nil`); a run-time
  panic (nil interface call, slice bounds) is the `fault` outcome, and the
  state returned with it holds the assignments made before the panic.
* `int` and `int64` values are `Int` with explicit wrap-around (`wrapInt64`);
  `uint64` values are `Nat` reduced modulo `2 ^ 64`.
* The directory object (`f.dir`) and the sarama client stand outside the
  file; their answers during one call are the fields of `Dir`.
* `select` over `f.consumer.Messages()` and `time.After(5s)`: the messages an
  open session delivers, each within the idle window of the previous one, are
  the list `pending`; when it is exhausted the timer branch is taken. Once
  `Close()` has been called on a session its `Messages()` channel is closed:
  the receive yields a nil message at once and `msg.Value` panics.
* `Close()` belongs to the sarama library: its first call on a session returns
  nil or an error, as its signature says; how a further call on the closed
  session ends (nil, an error, a panic) is a parameter of the session.
* The reader lock (`RLock`/`RUnlock`) and the log calls have no effect on
  the sequential behaviour and are left out.
-/

namespace Kfs

/-! ## Machine integers -/

/-- Two's-complement reduction of a mathematical integer to `int64`: the
residue modulo `2 ^ 64`, read as negative from `2 ^ 63` on. -/
def wrapInt64 (x : Int) : Int :=
  if 2 ^ 63 ≤ x % 2 ^ 64 then x % 2 ^ 64 - 2 ^ 64 else x % 2 ^ 64

/-- The Go conversion `uint64(x)` of an `int64` (or `int`) value. -/
def toUint64 (x : Int) : Nat := (x % 2 ^ 64).toNat

/-- Go `a &^ b` (AND NOT) on `uint32` operands. -/
def andNot32 (a b : Nat) : Nat := a &&& ((2 ^ 32 - 1) ^^^ b)

/-! ## Errors and outcomes -/

/-- A non-nil Go `error` value. -/
inductive GoError where
  | errno (code : Nat)
  | other (msg : String)
  deriving DecidableEq, Repr

/-- The value `fuse.EPERM`, which is `Errno(syscall.EPERM)`. -/
def EPERM : GoError := .errno 1

/-- How a call ends: it returns a value with a nil error, returns a non-nil
error, or panics. -/
inductive Outcome (α : Type) where
  | ok (v : α)
  | err (e : GoError)
  | fault
  deriving DecidableEq, Repr

/-! ## Library constants -/

/-- The constant `sarama.OffsetNewest`. -/
def OffsetNewest : Int := -1

/-- The constant `sarama.OffsetOldest`. -/
def OffsetOldest : Int := -2

/-- The flag `fuse.OpenDirectIO` (bit 0 of `OpenResponseFlags`). -/
def OpenDirectIO : Nat := 1

/-! ## Byte slices -/

/-- A Go `[]byte`: the backing array from the slice's start (its length is
the capacity) and the slice length. -/
structure Slice where
  arr : List UInt8
  len : Nat
  deriving DecidableEq, Repr

namespace Slice

/-- The expression `cap(s)`. -/
def cap (s : Slice) : Nat := s.arr.length

/-- The bytes a reader of the slice sees: `s[0], ..., s[len-1]`. -/
def bytes (s : Slice) : List UInt8 := s.arr.take s.len

/-- The expression `make([]byte, 0, n)`. -/
def make (n : Nat) : Slice := { arr := List.replicate n 0, len := 0 }

/-- The expression `s[:n]`; it panics (`none`) unless `0 <= n <= cap(s)`. -/
def upTo (s : Slice) (n : Int) : Option Slice :=
  if 0 ≤ n ∧ n ≤ (s.cap : Int) then some { s with len := n.toNat } else none

end Slice

/-- Writing `src` into an array in place from position `i` on, stopping at the
end of either. -/
def overwrite : List UInt8 → Nat → List UInt8 → List UInt8
  | [], _, _ => []
  | a :: as, 0, [] => a :: as
  | _ :: as, 0, x :: xs => x :: overwrite as 0 xs
  | a :: as, i + 1, xs => a :: overwrite as i xs

/-- The statement `copy(s[off:], src)`: the slice expression panics (`none`)
unless `0 <= off <= len(s)`; `copy` then moves
`min(len(s) - off, len(src))` bytes. -/
def Slice.copyFrom (s : Slice) (off : Int) (src : List UInt8) : Option Slice :=
  if 0 ≤ off ∧ off ≤ (s.len : Int) then
    some { s with arr := overwrite s.arr off.toNat (src.take (s.len - off.toNat)) }
  else none

/-! ## The data model -/

/-- The type `fuse.Attr`. Times and durations are kept as numbers. -/
structure Attr where
  Valid : Nat
  Inode : Nat
  Size : Nat
  Blocks : Nat
  Atime : Nat
  Mtime : Nat
  Ctime : Nat
  Crtime : Nat
  Mode : Nat
  Nlink : Nat
  Uid : Nat
  Gid : Nat
  Rdev : Nat
  Flags : Nat
  BlockSize : Nat
  deriving DecidableEq, Repr

/-- A `sarama.PartitionConsumer`: the payloads (`msg.Value`) it delivers on
`Messages()` before the next idle timeout while it is open, what the first
`Close()` returns, how a `Close()` on the already closed session ends, and
whether `Close()` has been called on it. -/
structure PartitionConsumer where
  pending : List (List UInt8)
  closeErr : Option GoError
  recloseOutcome : Outcome Unit
  closed : Bool
  deriving DecidableEq, Repr

/-- The method `PartitionConsumer.Close`: the session counts as closed from the
call on; the first call returns the session's error value, a call on a closed
session ends as the library makes it end. -/
def PartitionConsumer.Close (c : PartitionConsumer) : PartitionConsumer × Outcome Unit :=
  ({ c with closed := true },
    if c.closed then c.recloseOutcome
    else
      match c.closeErr with
      | none => .ok ()
      | some e => .err e)

/-- A `sarama.Consumer`, as far as `reconsume` uses it. -/
structure Consumer where
  ConsumePartition : String → Int → Int → Except GoError PartitionConsumer

/-- The answers of the directory object `f.dir` and of the sarama client it
owns during one call of the adapter. -/
structure Dir where
  reconnectKafkaIfNecessary : Option GoError
  GetOffset : String → Int → Int → Except GoError Int
  NewConsumerFromClient : Except GoError Consumer

/-- The struct `File` (the lock and the back pointers apart; a nil `consumer`
interface is `none`). -/
structure File where
  attr : Attr
  consumer : Option PartitionConsumer
  opened : Bool
  topic : String
  partitionId : Int
  deriving DecidableEq, Repr

/-- The type `fuse.OpenRequest`. -/
structure OpenRequest where
  Dir : Bool
  Flags : Nat
  deriving DecidableEq, Repr

/-- The type `fuse.OpenResponse`. -/
structure OpenResponse where
  Handle : Nat
  Flags : Nat
  deriving DecidableEq, Repr

/-- The returned `fs.Handle`: `Open` hands back the adapter itself. -/
inductive Handle where
  | self
  deriving DecidableEq, Repr

/-- The type `fuse.ReleaseRequest`. -/
structure ReleaseRequest where
  Dir : Bool
  Handle : Nat
  Flags : Nat
  deriving DecidableEq, Repr

/-- The type `fuse.ReadRequest`. -/
structure ReadRequest where
  Dir : Bool
  Handle : Nat
  Offset : Int
  Size : Int
  deriving DecidableEq, Repr

/-- The type `fuse.ReadResponse`. -/
structure ReadResponse where
  Data : Slice
  deriving DecidableEq, Repr

/-- The type `fuse.WriteRequest`. -/
structure WriteRequest where
  Handle : Nat
  Offset : Int
  Data : List UInt8
  Flags : Nat
  deriving DecidableEq, Repr

/-- The type `fuse.WriteResponse`. -/
structure WriteResponse where
  Size : Int
  deriving DecidableEq, Repr

/-! ## The methods of `File` -/

/-- The method `File.Attr`: the second component is `*o` after the call. -/
def File.Attr (f : File) (dir : Dir) (_o : Attr) : Attr × Option GoError :=
  let o1 := f.attr
  if !f.opened then
    match dir.reconnectKafkaIfNecessary with
    | some e => (o1, some e)
    | none =>
      match dir.GetOffset f.topic f.partitionId OffsetNewest with
      | .error e => (o1, some e)
      | .ok latestOffset =>
        match dir.GetOffset f.topic f.partitionId OffsetOldest with
        | .error e => (o1, some e)
        | .ok oldestOffset =>
          ({ o1 with Size := toUint64 (wrapInt64 (latestOffset - oldestOffset)) }, none)
  else
    (o1, none)

/-- The method `File.reconsume`. -/
def File.reconsume (f : File) (dir : Dir) (offset : Int) : File × Option GoError :=
  match dir.reconnectKafkaIfNecessary with
  | some e => (f, some e)
  | none =>
    match dir.NewConsumerFromClient with
    | .error e => (f, some e)
    | .ok consumer =>
      match consumer.ConsumePartition f.topic f.partitionId offset with
      | .error e => (f, some e)
      | .ok cp => ({ f with consumer := some cp }, none)

/-- What `File.Open` leaves and returns. -/
structure OpenReturn where
  file : File
  resp : OpenResponse
  handle : Option Handle
  err : Option GoError
  deriving DecidableEq, Repr

/-- The method `File.Open`. -/
def File.Open (f : File) (dir : Dir) (_req : OpenRequest) (resp : OpenResponse) : OpenReturn :=
  match f.reconsume dir OffsetOldest with
  | (f1, some e) => { file := f1, resp := resp, handle := none, err := some e }
  | (f1, none) =>
    { file := { f1 with opened := true },
      resp := { resp with Flags := andNot32 resp.Flags OpenDirectIO },
      handle := some Handle.self,
      err := none }

/-- The method `File.Release`: `f.opened = false`, then `Close()` is called on
the `consumer` interface, which panics when it is nil; what `Close()` does is
what `Release` does. -/
def File.Release (f : File) (_req : ReleaseRequest) : File × Outcome Unit :=
  let f1 := { f with opened := false }
  match f1.consumer with
  | none => (f1, .fault)
  | some c => ({ f1 with consumer := some c.Close.1 }, c.Close.2)

/-- The loop of `File.ReadAll`: `out` and `f.attr.Size` after the messages
`msgs` have been received and the timer has fired. -/
def readAllLoop : List (List UInt8) → List UInt8 → Nat → List UInt8 × Nat
  | [], out, size => (out, size)
  | msg :: rest, out, size =>
    readAllLoop rest (out ++ msg ++ [0x0A])
      ((size + toUint64 (wrapInt64 ((msg.length : Int) + 1))) % 2 ^ 64)

/-- The method `File.ReadAll`. On a nil `consumer` the call `Messages()` panics;
on a closed session the first receive yields the nil message and `msg.Value`
panics; in both cases `f.attr.Size` has been reset already. -/
def File.ReadAll (f : File) : File × Outcome (List UInt8) :=
  let f1 := { f with attr := { f.attr with Size := 0 } }
  match f1.consumer with
  | none => (f1, .fault)
  | some c =>
    if c.closed then (f1, .fault)
    else
      let r := readAllLoop c.pending [] f1.attr.Size
      ({ f1 with attr := { f1.attr with Size := r.2 },
                 consumer := some { c with pending := [] } },
        .ok r.1)

/-- Where the loop of `File.Read` stands when it leaves: the local `offset`,
`resp.Data`, the messages not yet received, and how it left. -/
structure ReadLoopEnd where
  offset : Int
  data : Slice
  rest : List (List UInt8)
  ret : Outcome Unit
  deriving DecidableEq, Repr

/-- The loop of `File.Read`. -/
def readLoop (reqSize : Int) : List (List UInt8) → Int → Slice → ReadLoopEnd
  | [], offset, data => { offset := offset, data := data, rest := [], ret := .ok () }
  | msg :: rest, offset, data =>
    if wrapInt64 (offset + (msg.length : Int)) > reqSize then
      { offset := offset, data := data, rest := rest, ret := .ok () }
    else
      match data.copyFrom offset msg with
      | none => { offset := offset, data := data, rest := rest, ret := .fault }
      | some data1 => readLoop reqSize rest (wrapInt64 (offset + (msg.length : Int))) data1

/-- What `File.Read` leaves and returns; `offset` is the value of the local
variable `offset`, the number of payload bytes copied, when the method is left. -/
structure ReadReturn where
  file : File
  resp : ReadResponse
  offset : Int
  ret : Outcome Unit
  deriving DecidableEq, Repr

/-- The method `File.Read`. After the reslicing of `resp.Data`, on a nil
`consumer` the call `Messages()` panics, and on a closed session the first
receive yields the nil message and `len(msg.Value)` panics. -/
def File.Read (f : File) (req : ReadRequest) (resp : ReadResponse) : ReadReturn :=
  match resp.Data.upTo req.Size with
  | none => { file := f, resp := resp, offset := 0, ret := .fault }
  | some data =>
    match f.consumer with
    | none => { file := f, resp := { resp with Data := data }, offset := 0, ret := .fault }
    | some c =>
      if c.closed then
        { file := f, resp := { resp with Data := data }, offset := 0, ret := .fault }
      else
        let r := readLoop req.Size c.pending 0 data
        { file := { f with consumer := some { c with pending := r.rest } },
          resp := { resp with Data := r.data },
          offset := r.offset,
          ret := r.ret }

/-- The method `File.Write`. -/
def File.Write (f : File) (_req : WriteRequest) (resp : WriteResponse) :
    File × WriteResponse × Option GoError :=
  (f, resp, some EPERM)

/-! ## Sequences of calls -/

/-- One request served by the adapter, with what its surroundings answer
during the request; `deliver` hands further messages to an installed
session. -/
inductive Call where
  | attr (dir : Dir) (o : Attr)
  | openFile (dir : Dir) (req : OpenRequest) (resp : OpenResponse)
  | release (req : ReleaseRequest)
  | readAll
  | read (req : ReadRequest) (resp : ReadResponse)
  | write (req : WriteRequest) (resp : WriteResponse)
  | deliver (msgs : List (List UInt8))

/-- The adapter after one request. -/
def step (f : File) : Call → File
  | .attr _ _ => f
  | .openFile dir req resp => (f.Open dir req resp).file
  | .release req => (f.Release req).1
  | .readAll => f.ReadAll.1
  | .read req resp => (f.Read req resp).file
  | .write req resp => (f.Write req resp).1
  | .deliver msgs =>
    match f.consumer with
    | none => f
    | some c => { f with consumer := some { c with pending := c.pending ++ msgs } }

/-- The adapter after a sequence of requests. -/
def run (f : File) (calls : List Call) : File := calls.foldl step f

/-- Every session the surroundings of a request create is open. -/
def Call.freshSessions : Call → Prop
  | .openFile dir _ _ =>
    ∀ consumer t p o cp, dir.NewConsumerFromClient = .ok consumer →
      consumer.ConsumePartition t p o = .ok cp → cp.closed = false
  | _ => True

/-- The framing of `ReadAll`: every payload followed by a line feed. -/
def framed (msgs : List (List UInt8)) : List UInt8 :=
  (msgs.map (fun m => m ++ [0x0A])).flatten


/-! ## Concrete adapters and surroundings -/

/-- The payloads `"a"`, `"bb"`, `"ccc"`. -/
def abcPayloads : List (List UInt8) := [[97], [98, 98], [99, 99, 99]]

/-- A session that delivers `"a"`, `"bb"`, `"ccc"` and then goes idle; its
`Close()` returns nil the first time and panics on the closed session. -/
def abcSession : PartitionConsumer :=
  { pending := abcPayloads, closeErr := none, recloseOutcome := .fault, closed := false }

/-- Attributes of a regular file whose cached size is 4242. -/
def sampleAttr : Attr :=
  { Valid := 0, Inode := 7, Size := 4242, Blocks := 0, Atime := 0, Mtime := 0, Ctime := 0,
    Crtime := 0, Mode := 0o444, Nlink := 1, Uid := 0, Gid := 0, Rdev := 0, Flags := 0,
    BlockSize := 0 }

/-- A freshly constructed adapter for partition 3 of topic `"orders"`. -/
def freshFile : File :=
  { attr := sampleAttr, consumer := none, opened := false, topic := "orders", partitionId := 3 }

/-- The adapter of `freshFile` with the session `abcSession` installed by `Open`. -/
def abcFile : File := { freshFile with consumer := some abcSession, opened := true }

/-- A session whose only message, of seven bytes, is longer than a window of five. -/
def longSession : PartitionConsumer :=
  { pending := [[1, 2, 3, 4, 5, 6, 7]], closeErr := none, recloseOutcome := .fault,
    closed := false }

/-- The adapter of `freshFile` with `longSession` installed by `Open`. -/
def longFile : File := { freshFile with consumer := some longSession, opened := true }

/-- A read request for a window of five bytes. -/
def readFive : ReadRequest := { Dir := false, Handle := 1, Offset := 0, Size := 5 }

/-- The response the FUSE server hands to `Read` for `readFive`: the buffer
`make([]byte, 0, 5)`. -/
def respFive : ReadResponse := { Data := Slice.make 5 }

/-- A consumer for partition 3 of `"orders"`: a subscription at `OffsetOldest`
delivers `"a"`, `"bb"`, `"ccc"`, one at any other offset delivers `"zz"`. -/
def sampleConsumer : Consumer :=
  { ConsumePartition := fun t p offset =>
      if t = "orders" ∧ p = 3 then
        if offset = OffsetOldest then .ok abcSession
        else .ok { pending := [[122, 122]], closeErr := none, recloseOutcome := .fault,
                   closed := false }
      else .error (.other "unknown topic or partition") }

/-- Surroundings in which everything succeeds for partition 3 of `"orders"`:
the partition spans the offsets 1000 to 1500 and subscriptions come from
`sampleConsumer`. -/
def sampleDir : Dir :=
  { reconnectKafkaIfNecessary := none
    GetOffset := fun t p which =>
      if t = "orders" ∧ p = 3 ∧ which = OffsetNewest then .ok 1500
      else if t = "orders" ∧ p = 3 ∧ which = OffsetOldest then .ok 1000
      else .error (.other "unknown topic or partition")
    NewConsumerFromClient := .ok sampleConsumer }

/-- Surroundings in which the lookup of the newest offset fails. -/
def newestFailsDir : Dir :=
  { sampleDir with
    GetOffset := fun _ _ which =>
      if which = OffsetNewest then .error (.other "offset out of range") else .ok 1000 }

/-- Surroundings in which the cluster cannot be reached. -/
def downDir : Dir :=
  { sampleDir with reconnectKafkaIfNecessary := some (.other "no available brokers") }

/-- An open request for a file. -/
def openReq : OpenRequest := { Dir := false, Flags := 0 }

/-- The response handed to `Open`: flags `OpenDirectIO | OpenKeepCache`. -/
def openResp : OpenResponse := { Handle := 0, Flags := 3 }

/-- A release request. -/
def releaseReq : ReleaseRequest := { Dir := false, Handle := 1, Flags := 0 }

/-- Surroundings in which the subscription to the partition is refused. -/
def refusedDir : Dir :=
  { sampleDir with
    NewConsumerFromClient := .ok
      { ConsumePartition := fun _ _ _ => .error (.other "topic/partition already consumed") } }

/-- An adapter that was opened on `abcSession` and then released. -/
def releasedFile : File :=
  { freshFile with consumer := some { abcSession with closed := true }, opened := false }

/-- A write request of two bytes. -/
def writeReq : WriteRequest := { Handle := 1, Offset := 0, Data := [104, 105], Flags := 0 }

/-- The response the FUSE server hands to `Write`. -/
def writeResp : WriteResponse := { Size := 0 }

/-- A session of requests: a failed open, an open, a drain, two releases, an
attribute query, a write, a windowed read and a second open. -/
def sampleCalls : List Call :=
  [ .openFile downDir openReq openResp, .openFile sampleDir openReq openResp, .readAll,
    .release releaseReq, .release releaseReq, .attr sampleDir sampleAttr,
    .write writeReq writeResp, .deliver [[120]], .read readFive respFive,
    .openFile sampleDir openReq openResp ]

/-- The session invariant of the adapter: it is open exactly when a session
that has not been closed is installed. -/
def SessionInv (f : File) : Prop :=
  f.opened = true ↔ ∃ c, f.consumer = some c ∧ c.closed = false

/-- A session that delivers nothing before the idle timeout. -/
def idleSession : PartitionConsumer :=
  { pending := [], closeErr := none, recloseOutcome := .fault, closed := false }

/-- The adapter of `freshFile` with `idleSession` installed by `Open`. -/
def idleFile : File := { freshFile with consumer := some idleSession, opened := true }

/-! ## Machine integer facts -/

theorem wrapInt64_of_range (x : Int) (h0 : -2 ^ 63 ≤ x) (h1 : x < 2 ^ 63) :
    wrapInt64 x = x := by
  unfold wrapInt64
  split <;> omega

theorem toUint64_wrapInt64 (x : Int) : toUint64 (wrapInt64 x) = toUint64 x := by
  unfold toUint64 wrapInt64
  split <;> congr 1 <;> omega

theorem toUint64_wrapInt64_sub (n o : Int) (ho : -2 ^ 63 ≤ o) (hn : n < 2 ^ 63) (h : o ≤ n) :
    toUint64 (wrapInt64 (n - o)) = (n - o).toNat := by
  rw [toUint64_wrapInt64]
  unfold toUint64
  congr 1
  omega

theorem toUint64_length_succ (n : Nat) : toUint64 ((n : Int) + 1) = (n + 1) % 2 ^ 64 := by
  unfold toUint64
  omega

/-! ## ReadAll -/

theorem framed_cons (m : List UInt8) (ms : List (List UInt8)) :
    framed (m :: ms) = m ++ [0x0A] ++ framed ms := by
  simp [framed]

theorem framed_length_cons (m : List UInt8) (ms : List (List UInt8)) :
    (framed (m :: ms)).length = m.length + 1 + (framed ms).length := by
  simp [framed_cons]
  omega

theorem readAllLoop_spec (msgs : List (List UInt8)) :
    ∀ (out : List UInt8) (size : Nat), size < 2 ^ 64 →
      readAllLoop msgs out size = (out ++ framed msgs, (size + (framed msgs).length) % 2 ^ 64) := by
  induction msgs with
  | nil =>
    intro out size hs
    rw [readAllLoop]
    have h0 : framed [] = [] := rfl
    rw [h0, List.append_nil, List.length_nil, Nat.add_zero, Nat.mod_eq_of_lt hs]
  | cons m ms ih =>
    intro out size _
    have h64 : (0 : Nat) < 2 ^ 64 := Nat.pow_pos (by decide)
    rw [readAllLoop, toUint64_wrapInt64, toUint64_length_succ,
      ih _ _ (Nat.mod_lt _ h64), framed_length_cons, framed_cons]
    refine Prod.ext ?_ ?_
    · simp only [List.append_assoc]
    · show _ % 2 ^ 64 = _ % 2 ^ 64
      omega

theorem ReadAll_eq (f : File) (c : PartitionConsumer) (hc : f.consumer = some c)
    (hopen : c.closed = false) :
    f.ReadAll =
      ({ f with attr := { f.attr with Size := (framed c.pending).length % 2 ^ 64 },
                consumer := some { c with pending := [] } },
        .ok (framed c.pending)) := by
  have h64 : (0 : Nat) < 2 ^ 64 := Nat.pow_pos (by decide)
  simp only [File.ReadAll, hc, hopen, readAllLoop_spec c.pending [] 0 h64, List.nil_append,
    Nat.zero_add, Bool.false_eq_true, if_false]

theorem ReadAll_closed_session (f : File) (c : PartitionConsumer) (hc : f.consumer = some c)
    (hclosed : c.closed = true) :
    f.ReadAll = ({ f with attr := { f.attr with Size := 0 } }, .fault) := by
  simp only [File.ReadAll, hc, hclosed, if_true]

/-- C1: with a session installed that is open (`Close()` has not been called on
it, so that it delivers messages and the idle timeout can fire) and delivers
the payloads `pending` before the idle timeout (possibly none), `ReadAll`
returns without error exactly the payloads in delivery order, each followed by
the byte `0x0A`, and leaves `attr.Size` equal to the number of bytes returned,
whatever it was before; nothing else of the adapter changes but that the
session has delivered its messages. The returned slice is a Go slice, so its
length is below `2 ^ 64`. -/
theorem ReadAll_returns_framed_payloads (f : File) (c : PartitionConsumer)
    (hc : f.consumer = some c) (hopen : c.closed = false)
    (hlen : (framed c.pending).length < 2 ^ 64) :
    f.ReadAll.2 = .ok (framed c.pending) ∧
      f.ReadAll.1.attr.Size = (framed c.pending).length ∧
      f.ReadAll.1.attr = { f.attr with Size := (framed c.pending).length } ∧
      f.ReadAll.1 = { f with attr := { f.attr with Size := (framed c.pending).length },
                             consumer := some { c with pending := [] } } := by
  rw [ReadAll_eq f c hc hopen, Nat.mod_eq_of_lt hlen]
  exact ⟨rfl, rfl, rfl, rfl⟩

/-- The scenario of C1: the payloads `"a"`, `"bb"`, `"ccc"` give the nine bytes
`"a\nbb\nccc\n"` and size 9, the cached size having been 4242. -/
theorem ReadAll_returns_framed_payloads_witness :
    abcFile.consumer = some abcSession ∧ abcSession.closed = false ∧
      (framed abcSession.pending).length < 2 ^ 64 ∧ abcFile.attr.Size = 4242 ∧
      (abcFile.ReadAll.2 = .ok [97, 10, 98, 98, 10, 99, 99, 99, 10] ∧
        abcFile.ReadAll.1.attr.Size = 9 ∧
        abcFile.ReadAll.1.attr = { abcFile.attr with Size := 9 } ∧
        abcFile.ReadAll.1.consumer = some { abcSession with pending := [] }) :=
  have h := ReadAll_returns_framed_payloads abcFile abcSession rfl rfl (by decide)
  ⟨rfl, rfl, by decide, rfl, h.1, h.2.1, h.2.2.1, congrArg File.consumer h.2.2.2⟩

/-! ## Read -/

theorem overwrite_length (arr : List UInt8) :
    ∀ (i : Nat) (xs : List UInt8), (overwrite arr i xs).length = arr.length := by
  induction arr with
  | nil => intro i xs; rfl
  | cons a as ih =>
    intro i xs
    cases i with
    | zero =>
      cases xs with
      | nil => rfl
      | cons x xs => simp [overwrite, ih]
    | succ i => simp [overwrite, ih]

theorem overwrite_getElem?_outside (arr : List UInt8) :
    ∀ (i : Nat) (xs : List UInt8) (j : Nat), j < i ∨ i + xs.length ≤ j →
      (overwrite arr i xs)[j]? = arr[j]? := by
  induction arr with
  | nil => intro i xs j _; rfl
  | cons a as ih =>
    intro i xs j hj
    cases i with
    | zero =>
      cases xs with
      | nil => rfl
      | cons x xs =>
        cases j with
        | zero => simp at hj
        | succ j =>
          simp only [overwrite, List.getElem?_cons_succ]
          exact ih 0 xs j (Or.inr (by simp at hj; omega))
    | succ i =>
      cases j with
      | zero => simp [overwrite]
      | succ j =>
        simp only [overwrite, List.getElem?_cons_succ]
        exact ih i xs j (by omega)

theorem readLoop_inv (reqSize : Int) (msgs : List (List UInt8)) :
    ∀ (offset : Int) (data : Slice), 0 ≤ offset → offset ≤ reqSize →
      (data.len : Int) = reqSize →
      (∀ m ∈ msgs, reqSize + (m.length : Int) < 2 ^ 63) →
      (readLoop reqSize msgs offset data).ret = .ok () ∧
        offset ≤ (readLoop reqSize msgs offset data).offset ∧
        (readLoop reqSize msgs offset data).offset ≤ reqSize ∧
        (readLoop reqSize msgs offset data).data.len = data.len ∧
        (readLoop reqSize msgs offset data).data.arr.length = data.arr.length ∧
        ∀ j : Nat, j < offset.toNat ∨ (readLoop reqSize msgs offset data).offset.toNat ≤ j →
          (readLoop reqSize msgs offset data).data.arr[j]? = data.arr[j]? := by
  induction msgs with
  | nil =>
    intro offset data _ h1 _ _
    rw [readLoop]
    exact ⟨rfl, le_refl _, h1, rfl, rfl, fun _ _ => rfl⟩
  | cons m ms ih =>
    intro offset data h0 h1 hlen hmem
    have hm : reqSize + (m.length : Int) < 2 ^ 63 := hmem m (List.mem_cons_self m ms)
    have hw : wrapInt64 (offset + (m.length : Int)) = offset + (m.length : Int) :=
      wrapInt64_of_range _ (by omega) (by omega)
    rw [readLoop, hw]
    by_cases hgt : offset + (m.length : Int) > reqSize
    · rw [if_pos hgt]
      exact ⟨rfl, le_refl _, h1, rfl, rfl, fun _ _ => rfl⟩
    · rw [if_neg hgt]
      have hcopy : data.copyFrom offset m = some
          { arr := overwrite data.arr offset.toNat (m.take (data.len - offset.toNat)),
            len := data.len } := by
        unfold Slice.copyFrom
        rw [if_pos ⟨h0, by omega⟩]
      rw [hcopy]
      dsimp only
      have hrec := ih (offset + (m.length : Int))
        { arr := overwrite data.arr offset.toNat (m.take (data.len - offset.toNat)),
          len := data.len }
        (by omega) (by omega) hlen (fun x hx => hmem x (List.mem_cons_of_mem m hx))
      obtain ⟨r1, r2, r3, r4, r5, r6⟩ := hrec
      refine ⟨r1, by omega, r3, r4, ?_, ?_⟩
      · rw [r5]
        exact overwrite_length _ _ _
      · intro j hj
        have htake : (m.take (data.len - offset.toNat)).length ≤ m.length := by
          rw [List.length_take]
          exact Nat.min_le_right _ _
        rw [r6 j (by omega)]
        exact overwrite_getElem?_outside _ _ _ _ (by omega)

theorem Read_eq (f : File) (c : PartitionConsumer) (req : ReadRequest) (resp : ReadResponse)
    (hc : f.consumer = some c) (hopen : c.closed = false) (h0 : 0 ≤ req.Size)
    (hcap : req.Size ≤ (resp.Data.cap : Int)) :
    f.Read req resp =
      { file := { f with consumer := some { c with pending :=
          (readLoop req.Size c.pending 0 { arr := resp.Data.arr, len := req.Size.toNat }).rest } },
        resp := { Data :=
          (readLoop req.Size c.pending 0 { arr := resp.Data.arr, len := req.Size.toNat }).data },
        offset :=
          (readLoop req.Size c.pending 0 { arr := resp.Data.arr, len := req.Size.toNat }).offset,
        ret :=
          (readLoop req.Size c.pending 0 { arr := resp.Data.arr, len := req.Size.toNat }).ret } := by
  simp only [File.Read, Slice.upTo, if_pos (And.intro h0 hcap), hc, hopen,
    Bool.false_eq_true, if_false]

theorem Read_closed_session (f : File) (c : PartitionConsumer) (req : ReadRequest)
    (resp : ReadResponse) (hc : f.consumer = some c) (hclosed : c.closed = true)
    (h0 : 0 ≤ req.Size) (hcap : req.Size ≤ (resp.Data.cap : Int)) :
    f.Read req resp =
      { file := f, resp := { Data := { arr := resp.Data.arr, len := req.Size.toNat } },
        offset := 0, ret := .fault } := by
  simp only [File.Read, Slice.upTo, if_pos (And.intro h0 hcap), hc, hclosed, if_true]

/-- C2: with an open session installed (one that delivers messages: `Close()`
has not been called on it), a window `req.Size >= 0` and a response
buffer whose capacity holds the window, `Read` returns nil without faulting;
the number of payload bytes it copied lies between 0 and `req.Size`; the
response data has length `req.Size`, never more; the buffer keeps its
capacity and every position from the copied count on (so every position from
`req.Size` on) keeps the byte it had; and when the first message is longer
than the window nothing is copied and the buffer is untouched. The window
and each payload are Go slices in one address space, so their lengths add up
to less than `2 ^ 63`. -/
theorem Read_writes_within_window (f : File) (c : PartitionConsumer) (req : ReadRequest)
    (resp : ReadResponse) (hc : f.consumer = some c) (hopen : c.closed = false)
    (h0 : 0 ≤ req.Size) (hcap : req.Size ≤ (resp.Data.cap : Int))
    (hmem : ∀ m ∈ c.pending, req.Size + (m.length : Int) < 2 ^ 63) :
    (f.Read req resp).ret = .ok () ∧
      0 ≤ (f.Read req resp).offset ∧ (f.Read req resp).offset ≤ req.Size ∧
      ((f.Read req resp).resp.Data.len : Int) = req.Size ∧
      ((f.Read req resp).resp.Data.bytes.length : Int) = req.Size ∧
      (f.Read req resp).resp.Data.cap = resp.Data.cap ∧
      (∀ j : Nat, (f.Read req resp).offset.toNat ≤ j →
        (f.Read req resp).resp.Data.arr[j]? = resp.Data.arr[j]?) ∧
      (∀ m rest, c.pending = m :: rest → req.Size < (m.length : Int) →
        (f.Read req resp).offset = 0 ∧ (f.Read req resp).resp.Data.arr = resp.Data.arr) := by
  have hlen : (({ arr := resp.Data.arr, len := req.Size.toNat } : Slice).len : Int) = req.Size := by
    show ((req.Size.toNat : Nat) : Int) = req.Size
    omega
  obtain ⟨r1, r2, r3, r4, r5, r6⟩ :=
    readLoop_inv req.Size c.pending 0 { arr := resp.Data.arr, len := req.Size.toNat }
      (le_refl _) h0 hlen hmem
  rw [Read_eq f c req resp hc hopen h0 hcap]
  dsimp only at r4 r5 r6 ⊢
  have hcap2 : req.Size.toNat ≤ resp.Data.arr.length := by
    unfold Slice.cap at hcap
    omega
  refine ⟨r1, r2, r3, ?_, ?_, ?_, ?_, ?_⟩
  · rw [r4]; omega
  · unfold Slice.bytes
    rw [List.length_take, r4, r5]
    omega
  · unfold Slice.cap
    exact r5
  · intro j hj
    exact r6 j (Or.inr hj)
  · intro m rest hp hbig
    have hm : req.Size + (m.length : Int) < 2 ^ 63 := hmem m (by rw [hp]; exact List.mem_cons_self m rest)
    have hw : wrapInt64 (0 + (m.length : Int)) = 0 + (m.length : Int) :=
      wrapInt64_of_range _ (by omega) (by omega)
    rw [hp, readLoop, hw, if_pos (by omega)]
    exact ⟨rfl, rfl⟩

/-- A single message of seven bytes against a window of five: nothing is
copied and `Read` returns nil. -/
theorem Read_writes_within_window_witness :
    longFile.consumer = some longSession ∧ longSession.closed = false ∧
      (0 : Int) ≤ readFive.Size ∧ readFive.Size ≤ (respFive.Data.cap : Int) ∧
      (longFile.Read readFive respFive).ret = .ok () ∧
      (longFile.Read readFive respFive).offset = 0 ∧
      (longFile.Read readFive respFive).resp.Data.arr = respFive.Data.arr :=
  have h := Read_writes_within_window longFile longSession readFive respFive rfl rfl
    (by decide) (by decide) (by decide)
  ⟨rfl, rfl, by decide, by decide, h.1,
    (h.2.2.2.2.2.2.2 [1, 2, 3, 4, 5, 6, 7] [] rfl (by decide)).1,
    (h.2.2.2.2.2.2.2 [1, 2, 3, 4, 5, 6, 7] [] rfl (by decide)).2⟩

/-- C3, refuted as stated: for the payloads `"a"`, `"bb"`, `"ccc"` and a window
of five bytes over `make([]byte, 0, 5)`, the response data of `Read` is
`"abb\0\0"`, not `"a\nbb\n"`: three payload bytes were copied and no
separator byte was written. -/
theorem Read_window_five_abc :
    (abcFile.Read readFive respFive).ret = .ok () ∧
      (abcFile.Read readFive respFive).offset = 3 ∧
      (abcFile.Read readFive respFive).resp.Data.bytes = [97, 98, 98, 0, 0] ∧
      (abcFile.Read readFive respFive).resp.Data.bytes ≠ [97, 10, 98, 98, 10] := by
  decide

/-- C3, amended: for an open session delivering the payloads `"a"`, `"bb"`,
`"ccc"` and a window of five bytes over any buffer of capacity at least five,
`Read` returns nil having copied exactly three payload bytes: `"a"` and `"bb"`
stand back to back at the start of the buffer with no separator byte, and
every buffer position from 3 on keeps the byte it held, so that nothing of
`"ccc"` is included; `"ccc"` is received, found not to fit, and dropped. -/
theorem Read_window_five_copies_abb (f : File) (c : PartitionConsumer) (req : ReadRequest)
    (b0 b1 b2 b3 b4 : UInt8) (more : List UInt8) (n : Nat) :
    ({ f with consumer := some { c with pending := abcPayloads, closed := false } }.Read
        { req with Size := 5 }
        { Data := { arr := b0 :: b1 :: b2 :: b3 :: b4 :: more, len := n } }).ret = .ok () ∧
      ({ f with consumer := some { c with pending := abcPayloads, closed := false } }.Read
        { req with Size := 5 }
        { Data := { arr := b0 :: b1 :: b2 :: b3 :: b4 :: more, len := n } }).offset = 3 ∧
      ({ f with consumer := some { c with pending := abcPayloads, closed := false } }.Read
        { req with Size := 5 }
        { Data := { arr := b0 :: b1 :: b2 :: b3 :: b4 :: more, len := n } }).resp.Data.arr
        = 97 :: 98 :: 98 :: b3 :: b4 :: more ∧
      ({ f with consumer := some { c with pending := abcPayloads, closed := false } }.Read
        { req with Size := 5 }
        { Data := { arr := b0 :: b1 :: b2 :: b3 :: b4 :: more, len := n } }).file.consumer
        = some { c with pending := [], closed := false } := by
  have hcap : (5 : Int) ≤
      ((({ arr := b0 :: b1 :: b2 :: b3 :: b4 :: more, len := n } : Slice).cap : Nat) : Int) := by
    simp only [Slice.cap, List.length_cons]
    omega
  rw [Read_eq { f with consumer := some { c with pending := abcPayloads, closed := false } }
    { c with pending := abcPayloads, closed := false } { req with Size := 5 }
    { Data := { arr := b0 :: b1 :: b2 :: b3 :: b4 :: more, len := n } } rfl rfl
    (show (0 : Int) ≤ 5 by decide) hcap]
  exact ⟨rfl, rfl, rfl, rfl⟩

/-! ## Attr -/

/-- C4: on a closed adapter, when the reconnect succeeds and the directory
resolves the newest offset to `n` and the oldest to `o`, both `int64` values
with `o <= n`, `Attr` returns nil and reports the size `n - o` (a `uint64`
value), every other attribute being the cached one. -/
theorem Attr_size_is_offset_span (f : File) (dir : Dir) (o0 : Attr) (n o : Int)
    (hclosed : f.opened = false) (hre : dir.reconnectKafkaIfNecessary = none)
    (hn : dir.GetOffset f.topic f.partitionId OffsetNewest = .ok n)
    (ho : dir.GetOffset f.topic f.partitionId OffsetOldest = .ok o)
    (hn64 : -2 ^ 63 ≤ n ∧ n < 2 ^ 63) (ho64 : -2 ^ 63 ≤ o ∧ o < 2 ^ 63) (hle : o ≤ n) :
    (f.Attr dir o0).2 = none ∧
      ((f.Attr dir o0).1.Size : Int) = n - o ∧
      (f.Attr dir o0).1.Size < 2 ^ 64 ∧
      (f.Attr dir o0).1 = { f.attr with Size := (n - o).toNat } := by
  have hsize := toUint64_wrapInt64_sub n o ho64.1 hn64.2 hle
  have heq : f.Attr dir o0 = ({ f.attr with Size := (n - o).toNat }, none) := by
    simp only [File.Attr, hclosed, hre, hn, ho, hsize, Bool.not_false, if_true]
  rw [heq]
  refine ⟨rfl, ?_, ?_, rfl⟩
  · show (((n - o).toNat : Nat) : Int) = n - o
    omega
  · show (n - o).toNat < 2 ^ 64
    omega

/-- The closed adapter `freshFile` against a partition spanning 1000 to 1500:
`Attr` reports size 500 and keeps the other cached attributes. -/
theorem Attr_size_is_offset_span_witness :
    freshFile.opened = false ∧
      (freshFile.Attr sampleDir sampleAttr).2 = none ∧
      ((freshFile.Attr sampleDir sampleAttr).1.Size : Int) = 1500 - 1000 ∧
      (freshFile.Attr sampleDir sampleAttr).1 = { sampleAttr with Size := 500 } :=
  have h := Attr_size_is_offset_span freshFile sampleDir sampleAttr 1500 1000 rfl rfl rfl rfl
    (by decide) (by decide) (by decide)
  ⟨rfl, h.1, h.2.1, h.2.2.2⟩

/-- C5: on a closed adapter `Attr` returns an error exactly when the
reconnect fails, or the lookup of the newest offset fails, or the lookup of the
oldest offset fails; the error returned is the one of the first of these
calls that fails (the later ones are not made), so no size is reported as a
success when a boundary offset could not be resolved. -/
theorem Attr_error_iff_collaborator_fails (f : File) (dir : Dir) (o0 : Attr)
    (hclosed : f.opened = false) :
    ((f.Attr dir o0).2 ≠ none ↔
        (dir.reconnectKafkaIfNecessary ≠ none ∨
          (∃ e, dir.GetOffset f.topic f.partitionId OffsetNewest = .error e) ∨
          (∃ e, dir.GetOffset f.topic f.partitionId OffsetOldest = .error e))) ∧
      (∀ e, dir.reconnectKafkaIfNecessary = some e → (f.Attr dir o0).2 = some e) ∧
      (∀ e, dir.reconnectKafkaIfNecessary = none →
        dir.GetOffset f.topic f.partitionId OffsetNewest = .error e →
        (f.Attr dir o0).2 = some e) ∧
      (∀ e n, dir.reconnectKafkaIfNecessary = none →
        dir.GetOffset f.topic f.partitionId OffsetNewest = .ok n →
        dir.GetOffset f.topic f.partitionId OffsetOldest = .error e →
        (f.Attr dir o0).2 = some e) := by
  simp only [File.Attr, hclosed, Bool.not_false, if_true]
  cases hre : dir.reconnectKafkaIfNecessary with
  | some e0 => simp
  | none =>
    cases hn : dir.GetOffset f.topic f.partitionId OffsetNewest with
    | error e1 => simp
    | ok n =>
      cases ho : dir.GetOffset f.topic f.partitionId OffsetOldest with
      | error e2 => simp
      | ok o => simp

/-- The lookup of the newest offset fails: `Attr` returns that very error. -/
theorem Attr_error_iff_collaborator_fails_witness :
    freshFile.opened = false ∧
      (freshFile.Attr newestFailsDir sampleAttr).2 = some (.other "offset out of range") :=
  ⟨rfl, (Attr_error_iff_collaborator_fails freshFile newestFailsDir sampleAttr rfl).2.2.1
    (.other "offset out of range") rfl rfl⟩

/-! ## Open and reconsume -/

theorem andNot32_testBit (x d i : Nat) (hx : x < 2 ^ 32) :
    (andNot32 x d).testBit i = (x.testBit i && !d.testBit i) := by
  unfold andNot32
  rw [Nat.testBit_land, Nat.testBit_xor, Nat.testBit_two_pow_sub_one]
  by_cases hi : i < 32
  · simp [hi]
  · have h2 : x < 2 ^ i := lt_of_lt_of_le hx (Nat.pow_le_pow_right (by decide) (by omega))
    simp [Nat.testBit_lt_two_pow h2]

theorem OpenDirectIO_testBit (i : Nat) : Nat.testBit OpenDirectIO i = decide (i = 0) := by
  have h : OpenDirectIO = 2 ^ 0 := rfl
  rw [h, Nat.testBit_two_pow]
  by_cases hi : i = 0
  · simp [hi]
  · have hne : ¬ (0 = i) := fun h0 => hi h0.symm
    simp [hi, hne]

theorem reconsume_ok (f : File) (dir : Dir) (offset : Int) (consumer : Consumer)
    (cp : PartitionConsumer) (hre : dir.reconnectKafkaIfNecessary = none)
    (hnew : dir.NewConsumerFromClient = .ok consumer)
    (hsub : consumer.ConsumePartition f.topic f.partitionId offset = .ok cp) :
    f.reconsume dir offset = ({ f with consumer := some cp }, none) := by
  simp only [File.reconsume, hre, hnew, hsub]

theorem reconsume_fails (f : File) (dir : Dir) (offset : Int) (e : GoError)
    (hfail : dir.reconnectKafkaIfNecessary = some e ∨
      (dir.reconnectKafkaIfNecessary = none ∧ dir.NewConsumerFromClient = .error e) ∨
      (dir.reconnectKafkaIfNecessary = none ∧ ∃ consumer,
        dir.NewConsumerFromClient = .ok consumer ∧
        consumer.ConsumePartition f.topic f.partitionId offset = .error e)) :
    f.reconsume dir offset = (f, some e) := by
  rcases hfail with h | ⟨h1, h2⟩ | ⟨h1, consumer, h2, h3⟩
  · simp only [File.reconsume, h]
  · simp only [File.reconsume, h1, h2]
  · simp only [File.reconsume, h1, h2, h3]

theorem Open_eq_of_fail (f : File) (dir : Dir) (req : OpenRequest) (resp : OpenResponse)
    (e : GoError) (h : f.reconsume dir OffsetOldest = (f, some e)) :
    f.Open dir req resp = { file := f, resp := resp, handle := none, err := some e } := by
  simp only [File.Open, h]

theorem Open_eq_of_ok (f : File) (dir : Dir) (req : OpenRequest) (resp : OpenResponse)
    (cp : PartitionConsumer)
    (h : f.reconsume dir OffsetOldest = ({ f with consumer := some cp }, none)) :
    f.Open dir req resp =
      { file := { f with consumer := some cp, opened := true },
        resp := { resp with Flags := andNot32 resp.Flags OpenDirectIO },
        handle := some Handle.self, err := none } := by
  simp only [File.Open, h]

/-- C6: whatever the adapter state, when the reconnect fails, or the consumer
cannot be created, or the subscription to the adapter's partition is refused,
`Open` returns that error and no handle, and the adapter (opened flag,
installed session, cached attributes) and the response are as before. -/
theorem Open_failure_changes_nothing (f : File) (dir : Dir) (req : OpenRequest)
    (resp : OpenResponse) (e : GoError)
    (hfail : dir.reconnectKafkaIfNecessary = some e ∨
      (dir.reconnectKafkaIfNecessary = none ∧ dir.NewConsumerFromClient = .error e) ∨
      (dir.reconnectKafkaIfNecessary = none ∧ ∃ consumer,
        dir.NewConsumerFromClient = .ok consumer ∧
        consumer.ConsumePartition f.topic f.partitionId OffsetOldest = .error e)) :
    (f.Open dir req resp).err = some e ∧ (f.Open dir req resp).handle = none ∧
      (f.Open dir req resp).file = f ∧
      (f.Open dir req resp).file.opened = f.opened ∧
      (f.Open dir req resp).file.consumer = f.consumer ∧
      (f.Open dir req resp).file.attr = f.attr ∧
      (f.Open dir req resp).resp = resp := by
  rw [Open_eq_of_fail f dir req resp e (reconsume_fails f dir OffsetOldest e hfail)]
  exact ⟨rfl, rfl, rfl, rfl, rfl, rfl, rfl⟩

/-- The open adapter `abcFile` when the subscription is refused: `Open` fails
and the session `abcSession` stays installed. -/
theorem Open_failure_changes_nothing_witness :
    (abcFile.Open refusedDir openReq openResp).err =
        some (.other "topic/partition already consumed") ∧
      (abcFile.Open refusedDir openReq openResp).handle = none ∧
      (abcFile.Open refusedDir openReq openResp).file = abcFile ∧
      (abcFile.Open refusedDir openReq openResp).file.consumer = some abcSession :=
  have h := Open_failure_changes_nothing abcFile refusedDir openReq openResp
    (.other "topic/partition already consumed")
    (Or.inr (Or.inr ⟨rfl, ⟨_, rfl, rfl⟩⟩))
  ⟨h.1, h.2.1, h.2.2.1, h.2.2.2.2.1⟩

/-- C7: whatever the adapter state, when the reconnect succeeds and the
subscription `cp` to the adapter's own topic and partition at `OffsetOldest`
is created, `Open` returns the adapter as handle with a nil error, installs
`cp` (whatever session was installed before), sets `opened`, clears bit 0
(`OpenDirectIO`) of the response flags and keeps every other flag bit and the
response handle; a `ReadAll` issued next, when the subscription is open, as a
newly created one is, and delivers a first payload `m`, returns bytes that
begin with `m` followed by `0x0A`. -/
theorem Open_installs_oldest_subscription (f : File) (dir : Dir) (req : OpenRequest)
    (resp : OpenResponse) (consumer : Consumer) (cp : PartitionConsumer)
    (hre : dir.reconnectKafkaIfNecessary = none)
    (hnew : dir.NewConsumerFromClient = .ok consumer)
    (hsub : consumer.ConsumePartition f.topic f.partitionId OffsetOldest = .ok cp)
    (hflags : resp.Flags < 2 ^ 32) :
    (f.Open dir req resp).err = none ∧ (f.Open dir req resp).handle = some Handle.self ∧
      (f.Open dir req resp).file = { f with consumer := some cp, opened := true } ∧
      (f.Open dir req resp).resp.Flags.testBit 0 = false ∧
      (∀ i, i ≠ 0 → (f.Open dir req resp).resp.Flags.testBit i = resp.Flags.testBit i) ∧
      (f.Open dir req resp).resp.Handle = resp.Handle ∧
      (∀ m rest, cp.closed = false → cp.pending = m :: rest →
        (f.Open dir req resp).file.ReadAll.2 = .ok (m ++ [0x0A] ++ framed rest)) := by
  rw [Open_eq_of_ok f dir req resp cp (reconsume_ok f dir OffsetOldest consumer cp hre hnew hsub)]
  refine ⟨rfl, rfl, rfl, ?_, ?_, rfl, ?_⟩
  · show (andNot32 resp.Flags OpenDirectIO).testBit 0 = false
    rw [andNot32_testBit _ _ _ hflags, OpenDirectIO_testBit]
    simp
  · intro i hi
    show (andNot32 resp.Flags OpenDirectIO).testBit i = resp.Flags.testBit i
    rw [andNot32_testBit _ _ _ hflags, OpenDirectIO_testBit]
    simp [hi]
  · intro m rest hopen hp
    rw [ReadAll_eq _ cp rfl hopen, hp, framed_cons]

/-- The adapter `longFile`, open on another session, is opened again: the
subscription at the oldest offset replaces the old session, flags 3 become 2,
and the next `ReadAll` begins with `"a\n"`. -/
theorem Open_installs_oldest_subscription_witness :
    (longFile.Open sampleDir openReq openResp).err = none ∧
      (longFile.Open sampleDir openReq openResp).file.consumer = some abcSession ∧
      (longFile.Open sampleDir openReq openResp).file.opened = true ∧
      (longFile.Open sampleDir openReq openResp).resp.Flags = 2 ∧
      (longFile.Open sampleDir openReq openResp).file.ReadAll.2 =
        .ok ([97] ++ [0x0A] ++ framed [[98, 98], [99, 99, 99]]) :=
  have h := Open_installs_oldest_subscription longFile sampleDir openReq openResp _ abcSession
    rfl rfl rfl (by decide)
  ⟨h.1, congrArg File.consumer h.2.2.1, congrArg File.opened h.2.2.1, by decide,
    h.2.2.2.2.2.2 [97] [[98, 98], [99, 99, 99]] rfl rfl⟩

/-! ## Release -/

theorem Close_of_closed (c : PartitionConsumer) (hcl : c.closed = true) :
    c.Close = (c, c.recloseOutcome) := by
  obtain ⟨pending, closeErr, recloseOutcome, closed⟩ := c
  simp only at hcl
  subst hcl
  rfl

theorem Release_with_session (f : File) (req : ReleaseRequest) (c : PartitionConsumer)
    (hc : f.consumer = some c) :
    f.Release req =
      ({ f with opened := false, consumer := some { c with closed := true } }, c.Close.2) := by
  simp only [File.Release, PartitionConsumer.Close, hc]

theorem Release_without_session (f : File) (req : ReleaseRequest) (hc : f.consumer = none) :
    f.Release req = ({ f with opened := false }, .fault) := by
  simp [File.Release, hc]

/-- C8, refuted as stated: on the freshly constructed adapter, which is closed
and holds no session, `Release` faults on the nil `consumer`. -/
theorem Release_fresh_adapter_faults :
    freshFile.opened = false ∧ freshFile.consumer = none ∧
      (freshFile.Release releaseReq).2 = Outcome.fault := by
  decide

/-- C8, amended: on a closed adapter `Release` leaves `opened` false and leaves
the attributes, the topic, the partition and the session reference as they
were. It faults exactly when no session is installed (the nil `consumer`) or
the `Close()` it calls on the installed session faults: with a session
installed it ends as that `Close()` ends, and on an adapter released before,
whose session is closed already, it ends as the library's `Close()` on a
closed session ends, the adapter being exactly as before. -/
theorem Release_on_closed_adapter (f : File) (req : ReleaseRequest)
    (hclosed : f.opened = false) :
    (f.Release req).1.opened = false ∧
      (f.Release req).1.attr = f.attr ∧ (f.Release req).1.topic = f.topic ∧
      (f.Release req).1.partitionId = f.partitionId ∧
      ((f.Release req).1.consumer.isSome = f.consumer.isSome) ∧
      ((f.Release req).2 = .fault ↔
        f.consumer = none ∨ ∃ c, f.consumer = some c ∧ c.Close.2 = .fault) ∧
      (∀ c, f.consumer = some c →
        (f.Release req).2 = c.Close.2 ∧
        (f.Release req).1 = { f with consumer := some { c with closed := true } } ∧
        (c.closed = true →
          (f.Release req).2 = c.recloseOutcome ∧ (f.Release req).1 = f)) ∧
      (f.consumer = none → (f.Release req).2 = .fault ∧ (f.Release req).1 = f) := by
  obtain ⟨attr, consumer, opened, topic, partitionId⟩ := f
  simp only at hclosed
  subst hclosed
  cases consumer with
  | none =>
    rw [Release_without_session _ _ rfl]
    refine ⟨rfl, rfl, rfl, rfl, rfl, ?_, ?_, ?_⟩
    · simp
    · intro c hc
      cases hc
    · intro _
      exact ⟨rfl, rfl⟩
  | some c0 =>
    rw [Release_with_session _ _ c0 rfl]
    refine ⟨rfl, rfl, rfl, rfl, rfl, ?_, ?_, ?_⟩
    · simp
    · intro c hc
      simp only [Option.some.injEq] at hc
      subst hc
      refine ⟨rfl, rfl, ?_⟩
      intro hcl
      rw [Close_of_closed c0 hcl]
      obtain ⟨pending, closeErr, recloseOutcome, closed⟩ := c0
      simp only at hcl
      subst hcl
      exact ⟨rfl, rfl⟩
    · intro hc
      cases hc

/-- A second `Release` on the released adapter `releasedFile`, whose session
panics when closed again: `Release` ends with that panic and leaves the
adapter as it was. -/
theorem Release_on_closed_adapter_witness :
    releasedFile.opened = false ∧
      (releasedFile.Release releaseReq).2 = .fault ∧
      (releasedFile.Release releaseReq).1 = releasedFile :=
  have h := (Release_on_closed_adapter releasedFile releaseReq rfl).2.2.2.2.2.2.1
    { abcSession with closed := true } rfl
  ⟨rfl, (h.2.2 rfl).1, (h.2.2 rfl).2⟩

/-! ## Write -/

/-- C9: for every write request and every adapter state `Write` returns the
error `EPERM`, never nil, and leaves the adapter and the write response as
they were. -/
theorem Write_always_EPERM (f : File) (req : WriteRequest) (resp : WriteResponse) :
    (f.Write req resp).2.2 = some EPERM ∧ (f.Write req resp).2.2 ≠ none ∧
      (f.Write req resp).1 = f ∧ (f.Write req resp).2.1 = resp := by
  refine ⟨rfl, ?_, rfl, rfl⟩
  simp [File.Write]

/-! ## The session invariant -/

theorem SessionInv_step (f : File) (call : Call) (hinv : SessionInv f)
    (hfresh : call.freshSessions) : SessionInv (step f call) := by
  unfold SessionInv at hinv ⊢
  cases call with
  | attr dir o => exact hinv
  | openFile dir req resp =>
    show ((f.Open dir req resp).file.opened = true ↔
      ∃ c, (f.Open dir req resp).file.consumer = some c ∧ c.closed = false)
    cases hre : dir.reconnectKafkaIfNecessary with
    | some e =>
      rw [Open_eq_of_fail f dir req resp e (reconsume_fails f dir _ e (Or.inl hre))]
      exact hinv
    | none =>
      cases hnew : dir.NewConsumerFromClient with
      | error e =>
        rw [Open_eq_of_fail f dir req resp e (reconsume_fails f dir _ e (Or.inr (Or.inl ⟨hre, hnew⟩)))]
        exact hinv
      | ok consumer =>
        cases hsub : consumer.ConsumePartition f.topic f.partitionId OffsetOldest with
        | error e =>
          rw [Open_eq_of_fail f dir req resp e
            (reconsume_fails f dir _ e (Or.inr (Or.inr ⟨hre, consumer, hnew, hsub⟩)))]
          exact hinv
        | ok cp =>
          have hcp : cp.closed = false := hfresh consumer _ _ _ cp hnew hsub
          rw [Open_eq_of_ok f dir req resp cp (reconsume_ok f dir _ consumer cp hre hnew hsub)]
          simp [hcp]
  | release req =>
    cases hc : f.consumer with
    | none => simp [step, Release_without_session f req hc, hc]
    | some c => simp [step, Release_with_session f req c hc]
  | readAll =>
    cases hc : f.consumer with
    | none => simpa [step, File.ReadAll, hc] using hinv
    | some c =>
      cases hcl : c.closed with
      | true => simpa [step, ReadAll_closed_session f c hc hcl, hc] using hinv
      | false => simpa [step, ReadAll_eq f c hc hcl, hc, hcl] using hinv
  | read req resp =>
    simp only [step, File.Read]
    cases hup : resp.Data.upTo req.Size with
    | none => exact hinv
    | some data =>
      cases hc : f.consumer with
      | none => simpa [hc] using hinv
      | some c =>
        cases hcl : c.closed with
        | true => simpa [hc, hcl] using hinv
        | false => simpa [hc, hcl] using hinv
  | write req resp => exact hinv
  | deliver msgs =>
    cases hc : f.consumer with
    | none => simpa [step, hc] using hinv
    | some c => simpa [step, hc] using hinv

theorem SessionInv_run (calls : List Call) :
    ∀ f : File, SessionInv f → (∀ call ∈ calls, call.freshSessions) →
      SessionInv (run f calls) := by
  induction calls with
  | nil => intro f hinv _; exact hinv
  | cons call rest ih =>
    intro f hinv hfresh
    show SessionInv (run (step f call) rest)
    exact ih (step f call)
      (SessionInv_step f call hinv (hfresh call (List.mem_cons_self call rest)))
      (fun x hx => hfresh x (List.mem_cons_of_mem call hx))

theorem sampleConsumer_fresh (t : String) (p o : Int) (cp : PartitionConsumer)
    (h : sampleConsumer.ConsumePartition t p o = .ok cp) : cp.closed = false := by
  simp only [sampleConsumer] at h
  split at h
  · split at h
    · cases h; rfl
    · cases h; rfl
  · cases h

theorem sampleCalls_freshSessions : ∀ call ∈ sampleCalls, call.freshSessions := by
  intro call hc
  simp only [sampleCalls, List.mem_cons, List.mem_singleton] at hc
  have hopen : ∀ (dir : Dir) (req : OpenRequest) (resp : OpenResponse),
      dir.NewConsumerFromClient = .ok sampleConsumer →
      (Call.openFile dir req resp).freshSessions := by
    intro dir req resp hd consumer t p o cp hnew hsub
    rw [hd] at hnew
    cases hnew
    exact sampleConsumer_fresh t p o cp hsub
  rcases hc with h | h | h | h | h | h | h | h | h | h | h
  · rw [h]; exact hopen _ _ _ rfl
  · rw [h]; exact hopen _ _ _ rfl
  · rw [h]; exact True.intro
  · rw [h]; exact True.intro
  · rw [h]; exact True.intro
  · rw [h]; exact True.intro
  · rw [h]; exact True.intro
  · rw [h]; exact True.intro
  · rw [h]; exact True.intro
  · rw [h]; exact hopen _ _ _ rfl
  · cases h

/-- C10, refuted as stated: from the freshly constructed adapter, a successful
`Open` followed by `Release` leaves the session installed in `consumer`
(closed) while `opened` is false. -/
theorem session_installed_after_release :
    freshFile.opened = false ∧ freshFile.consumer = none ∧
      (run freshFile [.openFile sampleDir openReq openResp, .release releaseReq]).consumer =
        some { abcSession with closed := true } ∧
      (run freshFile [.openFile sampleDir openReq openResp, .release releaseReq]).opened = false ∧
      ¬ ((run freshFile
            [.openFile sampleDir openReq openResp, .release releaseReq]).consumer.isSome = true ↔
          (run freshFile
            [.openFile sampleDir openReq openResp, .release releaseReq]).opened = true) := by
  decide

/-- C10, amended: in every state reached from a closed adapter without a
session by `Attr`, `Open` (succeeding or failing), `ReadAll`, `Read`, `Write`
and `Release` calls and message deliveries, where every subscription the
library creates is open when created, `opened` is true exactly when a session
that has not been closed is installed; so an open adapter has a session
installed, and a session installed in a closed adapter is one that `Release`
has closed. -/
theorem opened_iff_unclosed_session_installed (f0 : File) (calls : List Call)
    (hclosed : f0.opened = false) (hnone : f0.consumer = none)
    (hfresh : ∀ call ∈ calls, call.freshSessions) :
    ((run f0 calls).opened = true ↔
        ∃ c, (run f0 calls).consumer = some c ∧ c.closed = false) ∧
      ((run f0 calls).opened = true → (run f0 calls).consumer.isSome = true) ∧
      (∀ c, (run f0 calls).consumer = some c → (run f0 calls).opened = false →
        c.closed = true) := by
  have hinit : SessionInv f0 := by
    unfold SessionInv
    rw [hclosed, hnone]
    simp
  have hinv := SessionInv_run calls f0 hinit hfresh
  unfold SessionInv at hinv
  refine ⟨hinv, ?_, ?_⟩
  · intro ho
    obtain ⟨c, hc, _⟩ := hinv.mp ho
    rw [hc]
    rfl
  · intro c hc hcl
    cases hcc : c.closed with
    | true => rfl
    | false =>
      have ho := hinv.mpr ⟨c, hc, hcc⟩
      rw [hcl] at ho
      cases ho

/-- The requests of `sampleCalls` from the fresh adapter: the adapter ends
open, with the unclosed session of the last `Open` installed. -/
theorem opened_iff_unclosed_session_installed_witness :
    freshFile.opened = false ∧ freshFile.consumer = none ∧
      (run freshFile sampleCalls).opened = true ∧
      (run freshFile sampleCalls).consumer.isSome = true :=
  have h := opened_iff_unclosed_session_installed freshFile sampleCalls rfl rfl
    sampleCalls_freshSessions
  ⟨rfl, rfl, by decide, h.2.1 (by decide)⟩

/-! ## What the windowed read has written -/

theorem overwrite_take (arr : List UInt8) :
    ∀ (i : Nat) (xs : List UInt8), i + xs.length ≤ arr.length →
      (overwrite arr i xs).take (i + xs.length) = arr.take i ++ xs := by
  induction arr with
  | nil =>
    intro i xs h
    have hlen : xs.length = 0 := by
      simp only [List.length_nil] at h
      omega
    have hx : xs = [] := List.eq_nil_of_length_eq_zero hlen
    subst hx
    simp [overwrite]
  | cons a as ih =>
    intro i xs h
    cases i with
    | zero =>
      cases xs with
      | nil => simp [overwrite]
      | cons x xs =>
        have h2 : 0 + xs.length ≤ as.length := by
          simp only [List.length_cons] at h
          omega
        have hrec := ih 0 xs h2
        simp only [Nat.zero_add, List.take_zero, List.nil_append] at hrec
        simp [overwrite, hrec]
    | succ i =>
      have h2 : i + xs.length ≤ as.length := by
        simp only [List.length_cons] at h
        omega
      have hrec := ih i xs h2
      have hidx : i + 1 + xs.length = (i + xs.length) + 1 := by omega
      rw [hidx]
      simp [overwrite, hrec]

theorem flatten_take_length_mono (msgs : List (List UInt8)) :
    ∀ (j k : Nat), j ≤ k → (msgs.take j).flatten.length ≤ (msgs.take k).flatten.length := by
  induction msgs with
  | nil => intro j k _; simp
  | cons m ms ih =>
    intro j k hjk
    cases j with
    | zero => simp
    | succ j =>
      cases k with
      | zero => omega
      | succ k =>
        have hrec := ih j k (by omega)
        simp only [List.take_succ_cons, List.flatten_cons, List.length_append]
        omega

theorem readLoop_written (reqSize : Int) (msgs : List (List UInt8)) :
    ∀ (offset : Int) (data : Slice), 0 ≤ offset → offset ≤ reqSize →
      (data.len : Int) = reqSize → data.len ≤ data.arr.length →
      (∀ m ∈ msgs, reqSize + (m.length : Int) < 2 ^ 63) →
      ∃ k : Nat, k ≤ msgs.length ∧
        (readLoop reqSize msgs offset data).offset =
          offset + ((msgs.take k).flatten.length : Int) ∧
        (readLoop reqSize msgs offset data).data.arr.take
            (readLoop reqSize msgs offset data).offset.toNat =
          data.arr.take offset.toNat ++ (msgs.take k).flatten ∧
        (k < msgs.length →
          offset + ((msgs.take (k + 1)).flatten.length : Int) > reqSize) ∧
        (readLoop reqSize msgs offset data).rest = msgs.drop (k + 1) := by
  induction msgs with
  | nil =>
    intro offset data _ _ _ _ _
    refine ⟨0, le_refl _, ?_, ?_, ?_, ?_⟩
    · rw [readLoop]; simp
    · rw [readLoop]; simp
    · intro h; simp at h
    · rw [readLoop]; simp
  | cons m ms ih =>
    intro offset data h0 h1 hlen hcap hmem
    have hm : reqSize + (m.length : Int) < 2 ^ 63 := hmem m (List.mem_cons_self m ms)
    have hw : wrapInt64 (offset + (m.length : Int)) = offset + (m.length : Int) :=
      wrapInt64_of_range _ (by omega) (by omega)
    rw [readLoop, hw]
    by_cases hgt : offset + (m.length : Int) > reqSize
    · rw [if_pos hgt]
      refine ⟨0, Nat.zero_le _, ?_, ?_, ?_, ?_⟩
      · simp
      · simp
      · intro _
        simpa using hgt
      · simp
    · rw [if_neg hgt]
      have htake : m.take (data.len - offset.toNat) = m :=
        List.take_of_length_le (by omega)
      have hcopy : data.copyFrom offset m = some
          { arr := overwrite data.arr offset.toNat m, len := data.len } := by
        unfold Slice.copyFrom
        rw [if_pos ⟨h0, by omega⟩, htake]
      rw [hcopy]
      dsimp only
      have hcap1 : data.len ≤ (overwrite data.arr offset.toNat m).length := by
        rw [overwrite_length]
        exact hcap
      obtain ⟨k, hk, r1, r2, r3, r4⟩ := ih (offset + (m.length : Int))
        { arr := overwrite data.arr offset.toNat m, len := data.len }
        (by omega) (by omega) hlen hcap1 (fun x hx => hmem x (List.mem_cons_of_mem m hx))
      have hidx : (offset + (m.length : Int)).toNat = offset.toNat + m.length := by omega
      have hov := overwrite_take data.arr offset.toNat m (by omega)
      refine ⟨k + 1, by simp only [List.length_cons]; omega, ?_, ?_, ?_, ?_⟩
      · rw [r1]
        simp only [List.take_succ_cons, List.flatten_cons, List.length_append]
        push_cast
        omega
      · rw [r2]
        dsimp only
        rw [hidx, hov]
        simp only [List.take_succ_cons, List.flatten_cons, List.append_assoc]
      · intro hlt
        have hlt2 : k < ms.length := by
          simp only [List.length_cons] at hlt
          omega
        have h3 := r3 hlt2
        simp only [List.take_succ_cons, List.flatten_cons, List.length_append] at h3 ⊢
        push_cast at h3 ⊢
        omega
      · rw [r4]
        simp

/-- What `Read` does get right on an open session: it returns nil, and the
bytes it has written, the first `offset` bytes of the response data, are the
payloads of the longest run of leading messages whose lengths add up to at
most `req.Size`, back to back in delivery order; the response data itself is
always `req.Size` bytes long. -/
theorem Read_written_region (f : File) (c : PartitionConsumer) (req : ReadRequest)
    (resp : ReadResponse) (hc : f.consumer = some c) (hopen : c.closed = false)
    (h0 : 0 ≤ req.Size) (hcap : req.Size ≤ (resp.Data.cap : Int))
    (hmem : ∀ m ∈ c.pending, req.Size + (m.length : Int) < 2 ^ 63) :
    (f.Read req resp).ret = .ok () ∧
      ((f.Read req resp).resp.Data.bytes.length : Int) = req.Size ∧
      ∃ k : Nat, k ≤ c.pending.length ∧
        (f.Read req resp).offset = ((c.pending.take k).flatten.length : Int) ∧
        (f.Read req resp).resp.Data.bytes.take (f.Read req resp).offset.toNat =
          (c.pending.take k).flatten ∧
        ((c.pending.take k).flatten.length : Int) ≤ req.Size ∧
        (∀ j, j ≤ c.pending.length →
          ((c.pending.take j).flatten.length : Int) ≤ req.Size → j ≤ k) := by
  have hcap2 : req.Size.toNat ≤ resp.Data.arr.length := by
    unfold Slice.cap at hcap
    omega
  have hlen : (({ arr := resp.Data.arr, len := req.Size.toNat } : Slice).len : Int) = req.Size := by
    show ((req.Size.toNat : Nat) : Int) = req.Size
    omega
  obtain ⟨i1, _, i3, i4, i5, _⟩ :=
    readLoop_inv req.Size c.pending 0 { arr := resp.Data.arr, len := req.Size.toNat }
      (le_refl _) h0 hlen hmem
  obtain ⟨k, hk, w1, w2, w3, _⟩ :=
    readLoop_written req.Size c.pending 0 { arr := resp.Data.arr, len := req.Size.toNat }
      (le_refl _) h0 hlen hcap2 hmem
  rw [Read_eq f c req resp hc hopen h0 hcap]
  dsimp only at i4 i5 w2 ⊢
  refine ⟨i1, ?_, k, hk, ?_, ?_, ?_, ?_⟩
  · unfold Slice.bytes
    rw [List.length_take, i4, i5]
    omega
  · rw [w1]; omega
  · unfold Slice.bytes
    rw [List.take_take, i4, Nat.min_eq_left (by omega), w2]
    simp
  · rw [w1] at i3
    omega
  · intro j hj hfit
    by_contra hlt
    have hkl : k < c.pending.length := by omega
    have hno := w3 hkl
    have hmono := flatten_take_length_mono c.pending (k + 1) j (by omega)
    omega

/-- C11 (the code at two failing inputs): for `"a"`, `"bb"`, `"ccc"` and a
window of five bytes the longest fitting run is `"a"`, `"bb"` (three bytes,
`"ccc"` would make six) and `Read` has written these three bytes, but the
response data it returns is five bytes long, not three; for a session that
delivers nothing before the timeout `Read` returns five zero bytes, not no
bytes. -/
theorem Read_returns_whole_window :
    (abcFile.Read readFive respFive).ret = .ok () ∧
      (abcPayloads.take 2).flatten = [97, 98, 98] ∧
      (abcPayloads.take 2).flatten.length ≤ 5 ∧
      ¬ (abcPayloads.take 3).flatten.length ≤ 5 ∧
      (abcFile.Read readFive respFive).offset = 3 ∧
      (abcFile.Read readFive respFive).resp.Data.bytes.length = 5 ∧
      (abcFile.Read readFive respFive).resp.Data.bytes ≠ (abcPayloads.take 2).flatten ∧
      (idleFile.Read readFive respFive).ret = .ok () ∧
      (idleFile.Read readFive respFive).offset = 0 ∧
      (idleFile.Read readFive respFive).resp.Data.bytes = [0, 0, 0, 0, 0] := by
  decide

end Kfs
